import Mathlib

/-!
Verification of the branch-workflow scripts of the scale-with-neon demo
repository.  The scripts are shallowly embedded as pure Lean functions:
strings are Lean `String`s (lists of characters), the process environment,
git results and HTTP responses are explicit parameters, and each script run
returns a record of its exit code and the provider API calls it issued.
-/

namespace ScaleNeon

/-- Boolean test that `pre` is a prefix of `s`, character by character.
Embeds the JavaScript `String.startsWith` used throughout the scripts. -/
def lineStarts : List Char → List Char → Bool
  | [], _ => true
  | _ :: _, [] => false
  | a :: as, b :: bs => a == b && lineStarts as bs

/-- Boolean substring test: embeds the JavaScript `String.includes`. -/
def containsSub (sub : List Char) : List Char → Bool
  | [] => lineStarts sub []
  | c :: rest => lineStarts sub (c :: rest) || containsSub sub rest

/-- String-level wrapper for `containsSub`. -/
def strContains (s sub : String) : Bool := containsSub sub.data s.data

/-- Character class `[a-zA-Z0-9-]` of the branch-name sanitization regex. -/
def isBranchNameChar (c : Char) : Bool := c.isAlphanum || c == '-'

/-- Per-character action of the sanitization regex replacement. -/
def sanitizeChar (c : Char) : Char := if isBranchNameChar c then c else '-'

/-- Embeds `branchName.replace(/[^a-zA-Z0-9-]/g, '-')` from
`which-db.ts` (init-new-feature, line 346) and `cleanup-feature.ts`
(line 112): every character outside `[a-zA-Z0-9-]` becomes a hyphen. -/
def sanitizeBranchName (s : String) : String :=
  String.mk (s.data.map sanitizeChar)

/-- ASCII lowercasing, embedding the JavaScript `toLowerCase` as used on
branch names before the protected-name comparison. -/
def strToLower (s : String) : String := String.mk (s.data.map Char.toLower)

/-- Splits a character sequence at newline characters, embedding the
JavaScript `text.split('\n')`: the empty text yields one empty line. -/
def splitCharLines : List Char → List (List Char)
  | [] => [[]]
  | c :: cs =>
    if c = '\n' then [] :: splitCharLines cs
    else
      match splitCharLines cs with
      | [] => [[c]]
      | l :: ls => (c :: l) :: ls

/-- Joins lines with newline characters, embedding `lines.join('\n')`. -/
def joinCharLines : List (List Char) → List Char
  | [] => []
  | [l] => l
  | l :: l' :: ls => l ++ '\n' :: joinCharLines (l' :: ls)

/-- Replaces the first line having the given prefix by `newLine`, returning
`none` when no line matches.  This is the loop of the `.env` update in
`which-db.ts` lines 396-402 (and the first-match semantics of the
non-global regex replaces in `test-commit-id.ts`). -/
def setFirstLine (pre newLine : List Char) : List (List Char) →
    Option (List (List Char))
  | [] => none
  | l :: ls =>
    if lineStarts pre l then some (newLine :: ls)
    else (setFirstLine pre newLine ls).map (l :: ·)

/-- Boolean test of the JavaScript `line.endsWith('\n')` applied to a text. -/
def endsWithNewline (l : List Char) : Bool := l.getLast? == some '\n'

/-- Upsert of a key into the `.env` text, embedding `which-db.ts` lines
392-412 (the same code appears in `part_004` lines 207-222 with the
development key): replace the first line starting with `KEY=` by
`KEY="value"`; otherwise push an empty line when the text is nonempty and
lacks a trailing newline, then push `KEY="value"`. -/
def upsertEnvData (text key value : List Char) : List Char :=
  match setFirstLine (key ++ ['=']) (key ++ '=' :: '"' :: value ++ ['"'])
      (splitCharLines text) with
  | some ls => joinCharLines ls
  | none =>
    joinCharLines
      ((if text ≠ [] && !endsWithNewline text then splitCharLines text ++ [[]]
        else splitCharLines text) ++ [key ++ '=' :: '"' :: value ++ ['"']])

/-- String-level wrapper for `upsertEnvData`. -/
def upsertEnv (text key value : String) : String :=
  String.mk (upsertEnvData text.data key.data value.data)

/-- Reads a key back from an `.env` text, embedding the pattern
`text.match(/^KEY=(.*)$/m)` followed by `.replace(/"/g, "")` from
`test-commit-id.ts` lines 238-241 and `restore-prod.ts` lines 130-143:
the first line starting with `KEY=` yields the rest of that line with all
double quotes removed. -/
def readEnvKeyData (text key : List Char) : Option (List Char) :=
  ((splitCharLines text).find? (fun l => lineStarts (key ++ ['=']) l)).map
    (fun l => (l.drop (key.length + 1)).filter (fun c => c != '"'))

/-- String-level wrapper for `readEnvKeyData`. -/
def readEnvKey (text key : String) : Option String :=
  (readEnvKeyData text.data key.data).map String.mk

/-- Projection of the provider branch object (types.ts `NeonBranch`) to
the fields the scripts' control flow reads. -/
structure NeonBranch where
  id : String
  name : String
  default : Bool
  primary : Bool
  deriving DecidableEq

/-- Snapshot status union type from types.ts `NeonSnapshot.status`. -/
inductive SnapshotStatus where
  | active
  | expired
  | creating
  | error
  deriving DecidableEq

/-- Projection of the provider snapshot object (types.ts `NeonSnapshot`)
to the fields the scripts' control flow reads. -/
structure NeonSnapshot where
  id : String
  name : String
  status : SnapshotStatus
  deriving DecidableEq

/-- Create-branch request payload (types.ts `CreateBranchRequest`) as
built by `init-new-feature`; `expire_at` is epoch milliseconds. -/
structure CreateBranchReq where
  parent_id : String
  name : String
  expire_at : Nat
  pooler_enabled : Bool
  deriving DecidableEq

/-- Connection descriptor (types.ts `ConnectionUri`) restricted to the
fields read by `init-new-feature`. -/
structure ConnectionUriInfo where
  connection_uri : String
  host : String
  pooler_host : String
  deriving DecidableEq

/-- Create-branch response (types.ts `CreateBranchResponse`) restricted
to the fields read by `init-new-feature`. -/
structure CreateBranchResp where
  branchName : String
  branchId : String
  connection_uris : List ConnectionUriInfo
  deriving DecidableEq

/-- Provider API calls a script run can issue.  Metadata lookups that the
scripts use only for printed hints (development-branch endpoints in
cleanup-feature) never affect exit codes or deletions and are not traced. -/
inductive ApiCall where
  | listBranches
  | createBranch (req : CreateBranchReq)
  | deleteBranch (id : String)
  | listSnapshots
  | createSnapshot (branchId name : String)
  | restoreSnapshot (snapshotId : String)
  | getConnectionUri (branchId : String)
  deriving DecidableEq

/-- Outcome of one script run: process exit code, the provider calls
issued in order, console output where a claim depends on it, the written
`.env` content, and whether the branch-not-found warning fired. -/
structure RunResult where
  exitCode : Nat
  calls : List ApiCall
  message : String := ""
  envOut : Option String := none
  warnedBranchNotFound : Bool := false

/-- Presence of the two required environment variables. -/
structure ProviderEnv where
  hasApiKey : Bool
  hasProjectId : Bool
  deriving DecidableEq

/-- The protected names of `cleanup-feature.ts` lines 52-60. -/
def protectedBranchNames : List String :=
  ["main", "master", "development", "dev", "develop", "production", "prod"]

/-- JavaScript truthiness of an optional string value. -/
def optNonEmpty : Option String → Option String
  | none => none
  | some s => if s = "" then none else some s

/-- Branch-name resolution shared by all `cleanup-feature` variants
(lines 8-49): a truthy argv value is used as-is, otherwise the current
git branch unless it is empty or exactly `main`, `master` or
`development`; `none` means the script exits before any further step. -/
def resolveCleanupBranchName (argv gitBranch : Option String) :
    Option String :=
  match optNonEmpty argv with
  | some b => some b
  | none =>
    match gitBranch with
    | none => none
    | some g =>
      if g ≠ "" ∧ g ≠ "main" ∧ g ≠ "master" ∧ g ≠ "development" then some g
      else none

/-- Run of `cleanup-feature.ts` (the variant with the protected-branch
guard at lines 51-67): guard, env validation, branch listing, lookup of
the sanitized name, and deletion; a non-ok delete response throws to the
top-level catch which exits 1.  The development-branch lookup, `.env`
instructions and git cleanup that follow only warn and never change exit
code or provider mutations, so they are not modelled. -/
def cleanupFeatureV1Run (argv gitBranch : Option String)
    (penv : ProviderEnv) (fetchOk : Bool) (branches : List NeonBranch)
    (deleteOk : Bool) : RunResult :=
  match resolveCleanupBranchName argv gitBranch with
  | none => { exitCode := 1, calls := [] }
  | some branchName =>
    if protectedBranchNames.contains (strToLower branchName) then
      { exitCode := 1, calls := [] }
    else if !penv.hasApiKey then { exitCode := 1, calls := [] }
    else if !penv.hasProjectId then { exitCode := 1, calls := [] }
    else if !fetchOk then { exitCode := 1, calls := [ApiCall.listBranches] }
    else
      match branches.find?
          (fun b => decide (b.name = sanitizeBranchName branchName)) with
      | none =>
        { exitCode := 0, calls := [ApiCall.listBranches],
          warnedBranchNotFound := true }
      | some fb =>
        { exitCode := if deleteOk then 0 else 1,
          calls := [ApiCall.listBranches, ApiCall.deleteBranch fb.id] }

/-- Run of the `part_004` variant of cleanup-feature: identical guard,
lookup and delete logic (its later automatic `.env` rewrite from
`DEVELOPMENT_DATABASE_URL` only warns on failure and is not modelled). -/
def cleanupFeatureV4Run (argv gitBranch : Option String)
    (penv : ProviderEnv) (fetchOk : Bool) (branches : List NeonBranch)
    (deleteOk : Bool) : RunResult :=
  match resolveCleanupBranchName argv gitBranch with
  | none => { exitCode := 1, calls := [] }
  | some branchName =>
    if protectedBranchNames.contains (strToLower branchName) then
      { exitCode := 1, calls := [] }
    else if !penv.hasApiKey then { exitCode := 1, calls := [] }
    else if !penv.hasProjectId then { exitCode := 1, calls := [] }
    else if !fetchOk then { exitCode := 1, calls := [ApiCall.listBranches] }
    else
      match branches.find?
          (fun b => decide (b.name = sanitizeBranchName branchName)) with
      | none =>
        { exitCode := 0, calls := [ApiCall.listBranches],
          warnedBranchNotFound := true }
      | some fb =>
        { exitCode := if deleteOk then 0 else 1,
          calls := [ApiCall.listBranches, ApiCall.deleteBranch fb.id] }

/-- Run of the `part_003` variant of cleanup-feature: no protected-branch
guard at all; the lookup accepts the sanitized or the raw name
(lines 92-96), and a non-ok delete response throws to the catch which
exits 1. -/
def cleanupFeatureV3Run (argv gitBranch : Option String)
    (penv : ProviderEnv) (fetchOk : Bool) (branches : List NeonBranch)
    (deleteOk : Bool) : RunResult :=
  match resolveCleanupBranchName argv gitBranch with
  | none => { exitCode := 1, calls := [] }
  | some branchName =>
    if !penv.hasApiKey then { exitCode := 1, calls := [] }
    else if !penv.hasProjectId then { exitCode := 1, calls := [] }
    else if !fetchOk then { exitCode := 1, calls := [ApiCall.listBranches] }
    else
      match branches.find? (fun b =>
          decide (b.name = sanitizeBranchName branchName) ||
          decide (b.name = branchName)) with
      | none =>
        { exitCode := 0, calls := [ApiCall.listBranches],
          warnedBranchNotFound := true }
      | some fb =>
        { exitCode := if deleteOk then 0 else 1,
          calls := [ApiCall.listBranches, ApiCall.deleteBranch fb.id] }

/-- Production-branch resolution of `init-new-feature` (`which-db.ts`
lines 319-321): one pass returning the first branch that is named
`production` or named `main` or flagged default. -/
def findProductionBranchInit (branches : List NeonBranch) :
    Option NeonBranch :=
  branches.find? (fun b =>
    decide (b.name = "production") || decide (b.name = "main") || b.default)

/-- Production-branch resolution of `create-snapshot` (concatenated in
`restore-prod.ts`, lines 282-295): first a case-insensitively matching
`production`, else a case-insensitive `main`, else the first branch
flagged default or primary. -/
def findProductionBranchSnapshot (branches : List NeonBranch) :
    Option NeonBranch :=
  match branches.find? (fun b => decide (strToLower b.name = "production"))
      with
  | some b => some b
  | none =>
    match branches.find? (fun b => decide (strToLower b.name = "main")) with
    | some b => some b
    | none => branches.find? (fun b => b.default || b.primary)

/-- Production-branch resolution following the specification's words
(section 4.3): exact name `production`, else exact name `main`, else the
first branch flagged default, else the first flagged primary. -/
def resolveProductionBranchSpec (branches : List NeonBranch) :
    Option NeonBranch :=
  match branches.find? (fun b => decide (b.name = "production")) with
  | some b => some b
  | none =>
    match branches.find? (fun b => decide (b.name = "main")) with
    | some b => some b
    | none =>
      match branches.find? (fun b => b.default) with
      | some b => some b
      | none => branches.find? (fun b => b.primary)

/-- Replaces the first occurrence of `pat` (a plain string pattern),
embedding the JavaScript `String.replace(pat, repl)` with a string
argument as used on connection URIs. -/
def replaceFirstData (pat repl : List Char) : List Char → List Char
  | [] => if lineStarts pat [] then repl else []
  | c :: rest =>
    if lineStarts pat (c :: rest) then repl ++ (c :: rest).drop pat.length
    else c :: replaceFirstData pat repl rest

/-- String-level wrapper for `replaceFirstData`. -/
def strReplaceFirst (s pat repl : String) : String :=
  String.mk (replaceFirstData pat.data repl.data s.data)

/-- Connection-string selection of `init-new-feature` (`which-db.ts`
lines 377-380): substitute the pooler host for the host inside the URI
when a pooler host is present (JavaScript truthiness: nonempty). -/
def selectDatabaseUrl (cu : ConnectionUriInfo) : String :=
  if cu.pooler_host ≠ "" then
    strReplaceFirst cu.connection_uri cu.host cu.pooler_host
  else cu.connection_uri

/-- Run of `init-new-feature` (concatenated in `which-db.ts`, lines
268-444): argv and env validation, git steps, branch listing, production
resolution, branch creation with `expire_at` fourteen days ahead (the
script's `setDate(getDate() + 14)`, as epoch milliseconds), and the
`.env` upsert of `DATABASE_URL`. -/
def initNewFeatureRun (argvBranch : Option String) (penv : ProviderEnv)
    (gitOk fetchOk : Bool) (branches : List NeonBranch) (now : Nat)
    (createResp : Option CreateBranchResp) (envText : String) : RunResult :=
  match optNonEmpty argvBranch with
  | none => { exitCode := 1, calls := [] }
  | some branchName =>
    if !penv.hasApiKey then { exitCode := 1, calls := [] }
    else if !penv.hasProjectId then { exitCode := 1, calls := [] }
    else if !gitOk then { exitCode := 1, calls := [] }
    else if !fetchOk then { exitCode := 1, calls := [ApiCall.listBranches] }
    else
      match findProductionBranchInit branches with
      | none => { exitCode := 1, calls := [ApiCall.listBranches] }
      | some pb =>
        match createResp with
        | none =>
          { exitCode := 1,
            calls := [ApiCall.listBranches,
              ApiCall.createBranch
                { parent_id := pb.id, name := sanitizeBranchName branchName,
                  expire_at := now + 14 * 86400000,
                  pooler_enabled := true }] }
        | some resp =>
          match resp.connection_uris with
          | [] =>
            { exitCode := 1,
              calls := [ApiCall.listBranches,
                ApiCall.createBranch
                  { parent_id := pb.id,
                    name := sanitizeBranchName branchName,
                    expire_at := now + 14 * 86400000,
                    pooler_enabled := true }] }
          | cu :: _ =>
            { exitCode := 0,
              calls := [ApiCall.listBranches,
                ApiCall.createBranch
                  { parent_id := pb.id,
                    name := sanitizeBranchName branchName,
                    expire_at := now + 14 * 86400000,
                    pooler_enabled := true }],
              envOut :=
                some (upsertEnv envText "DATABASE_URL"
                  (selectDatabaseUrl cu)) }

/-- Run of `create-snapshot` (concatenated in `restore-prod.ts`, lines
231-390): commit-id validation, env validation, branch listing,
production resolution and the snapshot-creation call named
`prod-<commit-id>` (its 4-month expiry is calendar arithmetic and not
modelled; no claim concerns it). -/
def createSnapshotRun (commitId : String) (penv : ProviderEnv)
    (fetchOk : Bool) (branches : List NeonBranch) (snapshotOk : Bool) :
    RunResult :=
  if commitId = "" ∨ commitId.length < 7 then { exitCode := 1, calls := [] }
  else if !penv.hasApiKey then { exitCode := 1, calls := [] }
  else if !penv.hasProjectId then { exitCode := 1, calls := [] }
  else if !fetchOk then { exitCode := 1, calls := [ApiCall.listBranches] }
  else
    match findProductionBranchSnapshot branches with
    | none => { exitCode := 1, calls := [ApiCall.listBranches] }
    | some pb =>
      { exitCode := if snapshotOk then 0 else 1,
        calls := [ApiCall.listBranches,
          ApiCall.createSnapshot pb.id ("prod-" ++ commitId)] }

/-- Captured pre-overwrite `DATABASE_URL` of `test-commit-id.ts` lines
238-244: the first `DATABASE_URL=` line with quotes stripped, or the
placeholder when absent or empty (JavaScript `||` treats the empty
string as falsy). -/
def backupValue (env : List Char) : List Char :=
  match readEnvKeyData env "DATABASE_URL".data with
  | some v =>
    if v = [] then "# No previous DATABASE_URL found".data else v
  | none => "# No previous DATABASE_URL found".data

/-- Embeds GetSubstitution of the JavaScript `String.replace` for a plain
string replacement when the regex has no capture groups and no named
groups (the case for every regex in these scripts): `$$` yields `$`,
`$&` yields the matched text, `$` followed by the character 0x60 yields
the text before the match, `$` followed by the character 0x27 yields the
text after it, and every other occurrence of `$` — digits included,
since there are no captures — stays literal. -/
def substituteTemplate (matched before after : List Char) :
    List Char → List Char
  | [] => []
  | c :: rest =>
    if c = '$' then
      match rest with
      | [] => ['$']
      | d :: rest' =>
        if d = '$' then '$' :: substituteTemplate matched before after rest'
        else if d = '&' then
          matched ++ substituteTemplate matched before after rest'
        else if d = Char.ofNat 96 then
          before ++ substituteTemplate matched before after rest'
        else if d = Char.ofNat 39 then
          after ++ substituteTemplate matched before after rest'
        else '$' :: substituteTemplate matched before after (d :: rest')
    else c :: substituteTemplate matched before after rest

/-- First line with the given prefix together with the lines before and
after it. -/
def findFirstLine (pre : List Char) : List (List Char) →
    Option (List (List Char) × List Char × List (List Char))
  | [] => none
  | l :: ls =>
    if lineStarts pre l then some ([], l, ls)
    else (findFirstLine pre ls).map (fun x => (l :: x.1, x.2.1, x.2.2))

/-- Text preceding a matched line, with its separating newline. -/
def beforeTextOf (A : List (List Char)) : List Char :=
  match A with
  | [] => []
  | _ :: _ => joinCharLines A ++ ['\n']

/-- Text following a matched line, with its separating newline. -/
def afterTextOf (B : List (List Char)) : List Char :=
  match B with
  | [] => []
  | _ :: _ => '\n' :: joinCharLines B

/-- Embeds the JavaScript `text.replace(/^KEY=.*$/m, template)`: the
first line starting with `pre` is replaced by the `$`-substituted
template (the match is the whole line, so `$&` is that line and the
before/after texts are the surrounding lines); the text is unchanged
when no line matches. -/
def replaceFirstLineSubst (pre template env : List Char) : List Char :=
  match findFirstLine pre (splitCharLines env) with
  | none => env
  | some (A, m, B) =>
    beforeTextOf A ++
      substituteTemplate m (beforeTextOf A) (afterTextOf B) template ++
      afterTextOf B

/-- Step one of the `.env` rewrite of `test-commit-id.ts` (lines 247-254):
when the text contains the substring `DATABASE_URL=` anywhere, the first
line starting with it is regex-replaced with the `$`-substituted
replacement (a no-op if no line starts with it); otherwise
`\nDATABASE_URL="url"\n` is appended by plain concatenation. -/
def testEnvStep1 (env newUrl : List Char) : List Char :=
  if containsSub "DATABASE_URL=".data env then
    replaceFirstLineSubst "DATABASE_URL=".data
      ("DATABASE_URL=\"".data ++ newUrl ++ ['"']) env
  else env ++ '\n' :: "DATABASE_URL=\"".data ++ newUrl ++ "\"\n".data

/-- The backup block prepended by `test-commit-id.ts` line 244. -/
def backupEntry (env commitId : List Char) : List Char :=
  "# Backup of original DATABASE_URL (before testing ".data ++ commitId ++
    ")\nORIGINAL_DATABASE_URL=".data ++ backupValue env ++ ['\n']

/-- The `.env` rewrite of `test-commit-id.ts` lines 237-267: capture the
current `DATABASE_URL`, replace or append `DATABASE_URL`, then prepend
the backup block when no `ORIGINAL_DATABASE_URL=` substring exists, else
regex-replace the first `ORIGINAL_DATABASE_URL=` line with the
`$`-substituted replacement built from the captured value. -/
def updateEnvForTestData (env newUrl commitId : List Char) : List Char :=
  if containsSub "ORIGINAL_DATABASE_URL=".data (testEnvStep1 env newUrl) then
    replaceFirstLineSubst "ORIGINAL_DATABASE_URL=".data
      ("ORIGINAL_DATABASE_URL=".data ++ backupValue env)
      (testEnvStep1 env newUrl)
  else backupEntry env commitId ++ testEnvStep1 env newUrl

/-- String-level wrapper for `updateEnvForTestData`. -/
def updateEnvForTest (env newUrl commitId : String) : String :=
  String.mk (updateEnvForTestData env.data newUrl.data commitId.data)

/-- Run of `test-commit-id.ts` (lines 15-339): commit-id validation, env
validation, git checks and checkout, snapshot listing, exact-name lookup
of `prod-<commit-id>`, the active-status check (the source's
`status && status !== "active"`, where every value of the status union is
truthy), the two-phase restore call, the connection-uri call and the
`.env` rewrite.  The `message` field carries the console output of the
snapshot-lookup step. -/
def testCommitIdRun (commitId : String) (penv : ProviderEnv)
    (gitRepo checkoutOk fetchSnapshotsOk : Bool)
    (snapshots : List NeonSnapshot) (restoredBranch : Option NeonBranch)
    (connUri : Option String) (envText : String) : RunResult :=
  if commitId = "" ∨ commitId.length < 7 then { exitCode := 1, calls := [] }
  else if !penv.hasApiKey then { exitCode := 1, calls := [] }
  else if !penv.hasProjectId then { exitCode := 1, calls := [] }
  else if !gitRepo then { exitCode := 1, calls := [] }
  else if !checkoutOk then { exitCode := 1, calls := [] }
  else if !fetchSnapshotsOk then
    { exitCode := 1, calls := [ApiCall.listSnapshots] }
  else
    match snapshots.find? (fun s => decide (s.name = "prod-" ++ commitId))
        with
    | none =>
      { exitCode := 1, calls := [ApiCall.listSnapshots],
        message := "Looking for snapshot: " ++ ("prod-" ++ commitId) ++
          "...\nSnapshot not found: " ++ ("prod-" ++ commitId) }
    | some s =>
      if s.status ≠ SnapshotStatus.active then
        { exitCode := 1, calls := [ApiCall.listSnapshots],
          message := "Looking for snapshot: " ++ ("prod-" ++ commitId) ++
            "...\nSnapshot is not ready" }
      else
        match restoredBranch with
        | none =>
          { exitCode := 1,
            calls := [ApiCall.listSnapshots, ApiCall.restoreSnapshot s.id] }
        | some tb =>
          match connUri with
          | none =>
            { exitCode := 1,
              calls := [ApiCall.listSnapshots, ApiCall.restoreSnapshot s.id,
                ApiCall.getConnectionUri tb.id] }
          | some uri =>
            { exitCode := 0,
              calls := [ApiCall.listSnapshots, ApiCall.restoreSnapshot s.id,
                ApiCall.getConnectionUri tb.id],
              envOut := some (updateEnvForTest envText uri commitId) }

/-- Character class `[a-z0-9-]` of the endpoint-host regexes in
`which-db.ts`. -/
def isEndpointChar (c : Char) : Bool := c.isLower || c.isDigit || c == '-'

/-- Embeds `host.match(/^(ep-[a-z0-9-]+)(?:-pooler)?\..*\.neon\.tech$/)`
of `which-db.ts` lines 27-33 and returns the first capture.  Because the
greedy class run cannot contain a dot and the optional `-pooler` group
consists of class characters, the capture is always the maximal run of
class characters from the start; it must begin with `ep-` followed by at
least one character and be followed by a dot, and past that dot the rest
must end in `.neon.tech` with no newline in between (a JavaScript dot
matches no line terminator, and `$` without the multiline flag is the end
of input). -/
def extractEndpointIdFromHost (host : String) : Option String :=
  match host.data.dropWhile isEndpointChar with
  | '.' :: tail =>
    if lineStarts "ep-".data (host.data.takeWhile isEndpointChar) &&
        decide (3 < (host.data.takeWhile isEndpointChar).length) &&
        decide (10 ≤ tail.length) &&
        decide (tail.drop (tail.length - 10) = ".neon.tech".data) &&
        (tail.take (tail.length - 10)).all (fun c => c != '\n') then
      some (String.mk (host.data.takeWhile isEndpointChar))
    else none
  | _ => none

/-- Embeds `endpoint.host.replace(/^(ep-[a-z0-9-]+)\./, "$1-pooler.")` of
`which-db.ts` lines 139-142: when the host starts with an `ep-` class run
followed by a dot, insert `-pooler` before that dot, else return the host
unchanged. -/
def addPoolerToHost (h : String) : String :=
  match h.data.dropWhile isEndpointChar with
  | '.' :: tail =>
    if lineStarts "ep-".data (h.data.takeWhile isEndpointChar) &&
        decide (3 < (h.data.takeWhile isEndpointChar).length) then
      String.mk (h.data.takeWhile isEndpointChar ++ "-pooler.".data ++ tail)
    else h
  | _ => h

/-- Endpoint fields read by the `whichDatabase` matching loop. -/
structure EndpointInfo where
  id : String
  host : String
  deriving DecidableEq

/-- The per-endpoint match of `whichDatabase` (`which-db.ts` lines
135-151): direct host equality, pooled-host equality after inserting
`-pooler` into the endpoint host, or endpoint-id equality against the
identifier extracted from the `DATABASE_URL` host. -/
def endpointMatches (ep : EndpointInfo) (host endpointId : String) : Bool :=
  decide (ep.host = host) || decide (addPoolerToHost ep.host = host) ||
    decide (ep.id = endpointId)

theorem lineStarts_self_append (p t : List Char) :
    lineStarts p (p ++ t) = true := by
  induction p with
  | nil => rfl
  | cons a as ih => simp [lineStarts, ih]

theorem lineStarts_eq_append {p s : List Char} (h : lineStarts p s = true) :
    ∃ t, s = p ++ t := by
  induction p generalizing s with
  | nil => exact ⟨s, rfl⟩
  | cons a as ih =>
    cases s with
    | nil => simp [lineStarts] at h
    | cons b bs =>
      simp only [lineStarts, Bool.and_eq_true, beq_iff_eq] at h
      obtain ⟨t, ht⟩ := ih h.2
      exact ⟨t, by simp [← h.1, ht]⟩

theorem splitCharLines_ne_nil (cs : List Char) : splitCharLines cs ≠ [] := by
  induction cs with
  | nil => simp [splitCharLines]
  | cons c cs ih =>
    by_cases h : c = '\n'
    · simp [splitCharLines, h]
    · simp only [splitCharLines, if_neg h]
      cases hs : splitCharLines cs with
      | nil => simp
      | cons l ls => simp

theorem not_newline_mem_splitCharLines {cs l : List Char}
    (hl : l ∈ splitCharLines cs) : '\n' ∉ l := by
  induction cs generalizing l with
  | nil =>
    simp only [splitCharLines, List.mem_singleton] at hl
    simp [hl]
  | cons c cs ih =>
    by_cases h : c = '\n'
    · simp only [splitCharLines, if_pos h, List.mem_cons] at hl
      rcases hl with rfl | hl
      · simp
      · exact ih hl
    · simp only [splitCharLines, if_neg h] at hl
      cases hs : splitCharLines cs with
      | nil => exact absurd hs (splitCharLines_ne_nil cs)
      | cons l0 ls0 =>
        rw [hs] at hl
        rcases List.mem_cons.1 hl with rfl | hl
        · intro hm
          rcases List.mem_cons.1 hm with hm | hm
          · exact h hm.symm
          · exact ih (hs ▸ List.mem_cons_self l0 ls0) hm
        · exact ih (hs ▸ List.mem_cons_of_mem l0 hl)

theorem joinCharLines_splitCharLines (cs : List Char) :
    joinCharLines (splitCharLines cs) = cs := by
  induction cs with
  | nil => rfl
  | cons c cs ih =>
    by_cases h : c = '\n'
    · subst h
      simp only [splitCharLines, if_pos rfl]
      cases hs : splitCharLines cs with
      | nil => exact absurd hs (splitCharLines_ne_nil cs)
      | cons l ls =>
        rw [hs] at ih
        show [] ++ '\n' :: joinCharLines (l :: ls) = '\n' :: cs
        rw [ih]
        rfl
    · simp only [splitCharLines, if_neg h]
      cases hs : splitCharLines cs with
      | nil => exact absurd hs (splitCharLines_ne_nil cs)
      | cons l ls =>
        rw [hs] at ih
        cases ls with
        | nil =>
          show c :: l = c :: cs
          rw [← ih]
          rfl
        | cons l2 ls2 =>
          show (c :: l) ++ '\n' :: joinCharLines (l2 :: ls2) = c :: cs
          rw [← ih]
          rfl

theorem splitCharLines_single {l : List Char} (h : '\n' ∉ l) :
    splitCharLines l = [l] := by
  induction l with
  | nil => rfl
  | cons c cs ih =>
    have hc : ¬ c = '\n' := fun e => h (e ▸ List.mem_cons_self c cs)
    have h' : '\n' ∉ cs := fun hm => h (List.mem_cons_of_mem c hm)
    simp only [splitCharLines, if_neg hc, ih h']

theorem splitCharLines_append_newline {l : List Char} (h : '\n' ∉ l)
    (cs : List Char) :
    splitCharLines (l ++ '\n' :: cs) = l :: splitCharLines cs := by
  induction l with
  | nil => simp [splitCharLines]
  | cons c l ih =>
    have hc : ¬ c = '\n' := fun e => h (e ▸ List.mem_cons_self c l)
    have h' : '\n' ∉ l := fun hm => h (List.mem_cons_of_mem c hm)
    simp only [List.cons_append, splitCharLines, if_neg hc]
    rw [List.append_eq, ih h']

theorem splitCharLines_joinCharLines {ls : List (List Char)} (hne : ls ≠ [])
    (h : ∀ l ∈ ls, '\n' ∉ l) : splitCharLines (joinCharLines ls) = ls := by
  induction ls with
  | nil => exact absurd rfl hne
  | cons l ls ih =>
    cases ls with
    | nil => exact splitCharLines_single (h l (List.mem_cons_self l []))
    | cons l2 ls2 =>
      show splitCharLines (l ++ '\n' :: joinCharLines (l2 :: ls2)) = _
      rw [splitCharLines_append_newline (h l (List.mem_cons_self l _))]
      rw [ih (by simp) (fun x hx => h x (List.mem_cons_of_mem l hx))]

theorem setFirstLine_none_iff (pre nl : List Char) (ls : List (List Char)) :
    setFirstLine pre nl ls = none ↔ ∀ l ∈ ls, lineStarts pre l = false := by
  induction ls with
  | nil => simp [setFirstLine]
  | cons l ls ih =>
    by_cases h : lineStarts pre l = true
    · simp [setFirstLine, h]
    · simp only [setFirstLine, if_neg h, Option.map_eq_none', ih,
        List.mem_cons]
      constructor
      · intro ha x hx
        rcases hx with rfl | hx
        · exact Bool.eq_false_iff.2 h
        · exact ha x hx
      · intro ha x hx
        exact ha x (Or.inr hx)

theorem setFirstLine_some_spec {pre nl : List Char}
    {ls ls' : List (List Char)} (h : setFirstLine pre nl ls = some ls') :
    ∃ A m B, ls = A ++ m :: B ∧ ls' = A ++ nl :: B ∧
      lineStarts pre m = true ∧ ∀ l ∈ A, lineStarts pre l = false := by
  induction ls generalizing ls' with
  | nil => simp [setFirstLine] at h
  | cons l ls ih =>
    by_cases hl : lineStarts pre l = true
    · simp only [setFirstLine, if_pos hl, Option.some.injEq] at h
      exact ⟨[], l, ls, rfl, by simp [← h], hl, by simp⟩
    · simp only [setFirstLine, if_neg hl] at h
      cases hs : setFirstLine pre nl ls with
      | none => rw [hs] at h; simp at h
      | some ls'' =>
        rw [hs] at h
        simp only [Option.map_some', Option.some.injEq] at h
        obtain ⟨A, m, B, h1, h2, h3, h4⟩ := ih hs
        refine ⟨l :: A, m, B, by simp [h1], by simp [← h, h2], h3, ?_⟩
        intro x hx
        rcases List.mem_cons.1 hx with rfl | hx
        · exact Bool.eq_false_iff.2 hl
        · exact h4 x hx

theorem find?_append_all_false {α : Type} {p : α → Bool} {l1 : List α}
    (h : ∀ l ∈ l1, p l = false) (l2 : List α) :
    (l1 ++ l2).find? p = l2.find? p := by
  induction l1 with
  | nil => rfl
  | cons a l1 ih =>
    rw [List.cons_append, List.find?_cons,
      h a (List.mem_cons_self a l1)]
    exact ih (fun x hx => h x (List.mem_cons_of_mem a hx))

theorem lineStarts_nil_of_cons (a : Char) (pre : List Char) :
    lineStarts (a :: pre) [] = false := rfl

theorem lineStarts_keyEq_nil (key : List Char) :
    lineStarts (key ++ ['=']) [] = false := by
  cases key with
  | nil => rfl
  | cons a as => rfl

theorem lineStarts_newLine (key value : List Char) :
    lineStarts (key ++ ['=']) (key ++ '=' :: '"' :: value ++ ['"']) = true := by
  have h : key ++ '=' :: '"' :: value ++ ['"'] =
      (key ++ ['=']) ++ ('"' :: value ++ ['"']) := by simp
  rw [h]
  exact lineStarts_self_append _ _

theorem newLine_no_newline {key value : List Char} (hk : '\n' ∉ key)
    (hv : '\n' ∉ value) : '\n' ∉ key ++ '=' :: '"' :: value ++ ['"'] := by
  intro hm
  rcases List.mem_append.1 hm with h | h
  · rcases List.mem_append.1 h with h | h
    · exact hk h
    · rcases List.mem_cons.1 h with h | h
      · exact absurd h (by decide)
      · rcases List.mem_cons.1 h with h | h
        · exact absurd h (by decide)
        · exact hv h
  · exact absurd (List.mem_singleton.1 h) (by decide)

theorem drop_filter_newLine {value : List Char} (hq : '"' ∉ value)
    (key : List Char) :
    ((key ++ '=' :: '"' :: value ++ ['"']).drop (key.length + 1)).filter
      (fun c => c != '"') = value := by
  have h1 : key ++ '=' :: '"' :: value ++ ['"'] =
      (key ++ ['=']) ++ ('"' :: value ++ ['"']) := by simp
  have h2 : key.length + 1 = (key ++ ['=']).length := by simp
  rw [h1, h2, List.drop_left]
  have hval : value.filter (fun c => c != '"') = value :=
    List.filter_eq_self.2 (fun a ha => by
      have hne : a ≠ '"' := fun e => hq (e ▸ ha)
      simp [hne])
  rw [List.filter_append, List.filter_cons, if_neg (by decide), hval]
  simp

theorem readEnvKeyData_join_append_newLine {X : List (List Char)}
    {key value : List Char}
    (hX : ∀ l ∈ X, lineStarts (key ++ ['=']) l = false)
    (hXnl : ∀ l ∈ X, '\n' ∉ l)
    (hk : '\n' ∉ key) (hv : '\n' ∉ value) (hq : '"' ∉ value) :
    readEnvKeyData
      (joinCharLines (X ++ [key ++ '=' :: '"' :: value ++ ['"']])) key =
      some value := by
  unfold readEnvKeyData
  rw [splitCharLines_joinCharLines (by simp) (by
    intro l hl
    rcases List.mem_append.1 hl with h | h
    · exact hXnl l h
    · rw [List.mem_singleton.1 h]
      exact newLine_no_newline hk hv)]
  rw [find?_append_all_false hX]
  rw [List.find?_cons_of_pos _ (lineStarts_newLine key value)]
  simp only [Option.map_some']
  exact congrArg some (drop_filter_newLine hq key)

theorem readEnvKeyData_upsertEnvData (text key value : List Char)
    (hk : '\n' ∉ key) (hv : '\n' ∉ value) (hq : '"' ∉ value) :
    readEnvKeyData (upsertEnvData text key value) key = some value := by
  unfold upsertEnvData
  split
  next ls' hs =>
    obtain ⟨A, m, B, h1, h2, h3, h4⟩ := setFirstLine_some_spec hs
    have hnl : ∀ l ∈ ls', '\n' ∉ l := by
      intro l hl
      rw [h2] at hl
      rcases List.mem_append.1 hl with hA | hB
      · exact not_newline_mem_splitCharLines
          (by rw [h1]; exact List.mem_append_left _ hA)
      · rcases List.mem_cons.1 hB with rfl | hB
        · exact newLine_no_newline hk hv
        · exact not_newline_mem_splitCharLines
            (by rw [h1]
                exact List.mem_append_right _ (List.mem_cons_of_mem _ hB))
    have hne : ls' ≠ [] := by
      rw [h2]
      simp
    unfold readEnvKeyData
    rw [splitCharLines_joinCharLines hne hnl]
    rw [h2, find?_append_all_false h4]
    rw [List.find?_cons_of_pos _ (lineStarts_newLine key value)]
    simp only [Option.map_some']
    exact congrArg some (drop_filter_newLine hq key)
  next hs =>
    have hall := (setFirstLine_none_iff _ _ _).1 hs
    by_cases hb : (decide (text ≠ []) && !endsWithNewline text) = true
    · rw [if_pos hb]
      exact readEnvKeyData_join_append_newLine
        (by
          intro l hl
          rcases List.mem_append.1 hl with h | h
          · exact hall l h
          · rw [List.mem_singleton.1 h]
            exact lineStarts_keyEq_nil key)
        (by
          intro l hl
          rcases List.mem_append.1 hl with h | h
          · exact not_newline_mem_splitCharLines h
          · rw [List.mem_singleton.1 h]
            simp)
        hk hv hq
    · rw [if_neg hb]
      exact readEnvKeyData_join_append_newLine
        (fun l hl => hall l hl)
        (fun l hl => not_newline_mem_splitCharLines hl)
        hk hv hq

theorem isBranchNameChar_sanitizeChar (c : Char) :
    isBranchNameChar (sanitizeChar c) = true := by
  unfold sanitizeChar
  by_cases h : isBranchNameChar c = true
  · rw [if_pos h]; exact h
  · rw [if_neg h]; decide

theorem sanitizeChar_idem (c : Char) :
    sanitizeChar (sanitizeChar c) = sanitizeChar c := by
  have h1 := isBranchNameChar_sanitizeChar c
  show (if isBranchNameChar (sanitizeChar c) then sanitizeChar c else '-') =
    sanitizeChar c
  rw [if_pos h1]

/-- Claim C5: sanitization yields only alphanumerics and hyphens, and is
idempotent: `sanitize (sanitize x) = sanitize x`. -/
theorem sanitizeBranchName_only_alnum_hyphen_and_idempotent (x : String) :
    (∀ c ∈ (sanitizeBranchName x).data, isBranchNameChar c = true) ∧
    sanitizeBranchName (sanitizeBranchName x) = sanitizeBranchName x := by
  constructor
  · intro c hc
    have hm : c ∈ x.data.map sanitizeChar := hc
    obtain ⟨a, _, rfl⟩ := List.mem_map.1 hm
    exact isBranchNameChar_sanitizeChar a
  · show String.mk ((x.data.map sanitizeChar).map sanitizeChar) = _
    rw [List.map_map]
    exact congrArg String.mk
      (List.map_congr_left (fun a _ => sanitizeChar_idem a))

end ScaleNeon

namespace ScaleNeon

/-- Claim C1 (amended): in the `cleanup-feature.ts` and `part_004`
variants, a resolved branch name whose lowercased form is protected makes
the run exit 1 before any provider call is issued; the `part_003` variant
has no such guard, and its inferred-branch path refuses only the exact
names `main`, `master` and `development`. -/
theorem cleanup_protected_branch_guard
    (argv git : Option String) (penv : ProviderEnv) (fetchOk : Bool)
    (branches : List NeonBranch) (deleteOk : Bool) (bn : String)
    (hres : resolveCleanupBranchName argv git = some bn)
    (hprot : protectedBranchNames.contains (strToLower bn) = true) :
    (cleanupFeatureV1Run argv git penv fetchOk branches deleteOk).exitCode
      = 1 ∧
    (cleanupFeatureV1Run argv git penv fetchOk branches deleteOk).calls
      = [] ∧
    (cleanupFeatureV4Run argv git penv fetchOk branches deleteOk).exitCode
      = 1 ∧
    (cleanupFeatureV4Run argv git penv fetchOk branches deleteOk).calls
      = [] ∧
    (∀ g, g ∈ ["main", "master", "development"] →
      resolveCleanupBranchName none (some g) = none) := by
  unfold cleanupFeatureV1Run cleanupFeatureV4Run
  rw [hres]
  simp only [hprot, if_true]
  refine ⟨trivial, trivial, trivial, trivial, ?_⟩
  intro g hg
  fin_cases hg <;> decide

/-- Claim C1 witness: the guard fires at the concrete argument `Main`. -/
theorem cleanup_protected_branch_guard_witness :
    (cleanupFeatureV1Run (some "Main") none ⟨true, true⟩ true [] true).calls
      = [] ∧
    (cleanupFeatureV1Run (some "Main") none ⟨true, true⟩ true []
      true).exitCode = 1 :=
  have h := cleanup_protected_branch_guard (some "Main") none ⟨true, true⟩
    true [] true "Main" (by decide) (by decide)
  ⟨h.2.1, h.1⟩

/-- Claim C1 counterexample: the `part_003` variant, invoked with the
protected name `main` as its argument while the provider has a branch
named `main`, issues the provider DELETE call and finishes with exit
code 0 — the claim fails for this variant. -/
theorem cleanup_part003_deletes_protected_main :
    (cleanupFeatureV3Run (some "main") none ⟨true, true⟩ true
      [⟨"br-main", "main", true, false⟩] true).calls =
      [ApiCall.listBranches, ApiCall.deleteBranch "br-main"] ∧
    (cleanupFeatureV3Run (some "main") none ⟨true, true⟩ true
      [⟨"br-main", "main", true, false⟩] true).exitCode = 0 := by
  constructor <;> rfl

end ScaleNeon

namespace ScaleNeon

/-- Claim C2 counterexample: on the specification's test input the
production resolver of `init-new-feature` returns the branch named
`main`, not `production` — the single pass returns the first branch
satisfying any of the three conditions — diverging from the spec-modelled
precedence resolver. -/
theorem production_name_precedence_fails :
    (findProductionBranchInit
      [⟨"b1", "staging", false, false⟩, ⟨"b2", "main", false, false⟩,
       ⟨"b3", "production", false, false⟩]).map NeonBranch.name =
      some "main" ∧
    (resolveProductionBranchSpec
      [⟨"b1", "staging", false, false⟩, ⟨"b2", "main", false, false⟩,
       ⟨"b3", "production", false, false⟩]).map NeonBranch.name =
      some "production" := by
  constructor <;> rfl

/-- Claim C2 (amended): `create-snapshot` resolves production with the
precedence case-insensitive `production`, else case-insensitive `main`,
else the first branch flagged default or primary, and returns
`production` on the specification's test input; `init-new-feature` takes
the first branch named `production` or named `main` or flagged default
in a single pass, returning `main` on that input; in both orchestrators
the absence of any match is fatal and no creation call is issued. -/
theorem production_resolution_behaviour
    (branches : List NeonBranch) (bn cid : String) (hbn : bn ≠ "")
    (hcid : ¬(cid = "" ∨ cid.length < 7)) (now : Nat)
    (resp : Option CreateBranchResp) (envText : String) (snapOk : Bool) :
    (findProductionBranchSnapshot
      [⟨"b1", "staging", false, false⟩, ⟨"b2", "main", false, false⟩,
       ⟨"b3", "production", false, false⟩]).map NeonBranch.name =
      some "production" ∧
    (findProductionBranchInit
      [⟨"b1", "staging", false, false⟩, ⟨"b2", "main", false, false⟩,
       ⟨"b3", "production", false, false⟩]).map NeonBranch.name =
      some "main" ∧
    (findProductionBranchInit branches = none →
      (initNewFeatureRun (some bn) ⟨true, true⟩ true true branches now resp
        envText).exitCode = 1 ∧
      ∀ req, ApiCall.createBranch req ∉
        (initNewFeatureRun (some bn) ⟨true, true⟩ true true branches now
          resp envText).calls) ∧
    (findProductionBranchSnapshot branches = none →
      (createSnapshotRun cid ⟨true, true⟩ true branches snapOk).exitCode
        = 1 ∧
      ∀ b n, ApiCall.createSnapshot b n ∉
        (createSnapshotRun cid ⟨true, true⟩ true branches snapOk).calls) := by
  refine ⟨rfl, rfl, ?_, ?_⟩
  · intro hnone
    simp [initNewFeatureRun, optNonEmpty, hbn, hnone]
  · intro hnone
    simp [createSnapshotRun, hcid, hnone]

/-- Claim C2 witness: with an empty branch list both orchestrators fail. -/
theorem production_resolution_behaviour_witness :
    (initNewFeatureRun (some "x") ⟨true, true⟩ true true [] 0 none
      "").exitCode = 1 ∧
    (createSnapshotRun "abc123f" ⟨true, true⟩ true [] true).exitCode = 1 :=
  have h := production_resolution_behaviour [] "x" "abc123f" (by decide)
    (by decide) 0 none "" true
  ⟨(h.2.2.1 rfl).1, (h.2.2.2 rfl).1⟩

/-- Claim C9 counterexample: with the feature branch present in the list
and the DELETE response not ok (as a 404 not-found response is), cleanup
exits 1 after issuing the delete call — the failure is escalated, not
downgraded to a warning. -/
theorem cleanup_delete_notfound_fatal :
    (cleanupFeatureV1Run (some "feat-x") none ⟨true, true⟩ true
      [⟨"br-7", "feat-x", false, false⟩] false).exitCode = 1 ∧
    ApiCall.deleteBranch "br-7" ∈
      (cleanupFeatureV1Run (some "feat-x") none ⟨true, true⟩ true
        [⟨"br-7", "feat-x", false, false⟩] false).calls := by
  constructor
  · rfl
  · decide

/-- Claim C9 (amended): when the feature branch is absent from the branch
list, cleanup warns and continues to exit 0 without any delete call (the
desired end state already holds); but when the branch is found and the
DELETE response is not ok — not-found included — the thrown error makes
the run exit 1, in both cited variants. -/
theorem cleanup_delete_response_handling
    (argv git : Option String) (branches : List NeonBranch) (bn : String)
    (delOk : Bool)
    (hres : resolveCleanupBranchName argv git = some bn)
    (hprot : protectedBranchNames.contains (strToLower bn) = false) :
    (branches.find? (fun b => decide (b.name = sanitizeBranchName bn))
        = none →
      (cleanupFeatureV1Run argv git ⟨true, true⟩ true branches
        delOk).exitCode = 0 ∧
      (cleanupFeatureV1Run argv git ⟨true, true⟩ true branches
        delOk).warnedBranchNotFound = true ∧
      (cleanupFeatureV1Run argv git ⟨true, true⟩ true branches
        delOk).calls = [ApiCall.listBranches]) ∧
    (∀ fb, branches.find? (fun b => decide (b.name = sanitizeBranchName bn))
        = some fb →
      (cleanupFeatureV1Run argv git ⟨true, true⟩ true branches
        false).exitCode = 1 ∧
      (cleanupFeatureV1Run argv git ⟨true, true⟩ true branches
        false).calls =
        [ApiCall.listBranches, ApiCall.deleteBranch fb.id]) ∧
    (∀ fb, branches.find? (fun b =>
        decide (b.name = sanitizeBranchName bn) || decide (b.name = bn))
        = some fb →
      (cleanupFeatureV3Run argv git ⟨true, true⟩ true branches
        false).exitCode = 1 ∧
      (cleanupFeatureV3Run argv git ⟨true, true⟩ true branches
        false).calls =
        [ApiCall.listBranches, ApiCall.deleteBranch fb.id]) := by
  have hprot' : strToLower bn ∉ protectedBranchNames := by
    simpa using hprot
  refine ⟨?_, ?_, ?_⟩
  · intro hn
    simp [cleanupFeatureV1Run, hres, hprot', hn]
  · intro fb hf
    simp [cleanupFeatureV1Run, hres, hprot', hf]
  · intro fb hf
    simp [cleanupFeatureV3Run, hres, hf]

/-- Claim C9 witness: branch absent from the list, warn and exit 0. -/
theorem cleanup_delete_response_handling_witness :
    (cleanupFeatureV1Run (some "gone") none ⟨true, true⟩ true []
      true).exitCode = 0 ∧
    (cleanupFeatureV1Run (some "gone") none ⟨true, true⟩ true []
      true).calls = [ApiCall.listBranches] :=
  have h := cleanup_delete_response_handling (some "gone") none [] "gone"
    true (by decide) (by decide)
  ⟨(h.1 rfl).1, (h.1 rfl).2.2⟩

/-- Claim C7: a commit id shorter than seven characters makes both
create-snapshot and test-commit-id exit 1 with no provider call at all,
and a commit id of at least seven characters passes the shared
validation guard. -/
theorem commit_id_validation
    (cid : String) (penv penv' : ProviderEnv) (fetchOk : Bool)
    (branches : List NeonBranch) (snapOk gitRepo checkoutOk fsOk : Bool)
    (snaps : List NeonSnapshot) (rb : Option NeonBranch)
    (uri : Option String) (envText : String) :
    (cid.length < 7 →
      (createSnapshotRun cid penv fetchOk branches snapOk).exitCode = 1 ∧
      (createSnapshotRun cid penv fetchOk branches snapOk).calls = [] ∧
      (testCommitIdRun cid penv' gitRepo checkoutOk fsOk snaps rb uri
        envText).exitCode = 1 ∧
      (testCommitIdRun cid penv' gitRepo checkoutOk fsOk snaps rb uri
        envText).calls = []) ∧
    (7 ≤ cid.length → ¬(cid = "" ∨ cid.length < 7)) := by
  constructor
  · intro hlt
    have hcond : cid = "" ∨ cid.length < 7 := Or.inr hlt
    unfold createSnapshotRun testCommitIdRun
    rw [if_pos hcond, if_pos hcond]
    exact ⟨rfl, rfl, rfl, rfl⟩
  · intro hge
    rintro (rfl | hlt)
    · exact absurd hge (by decide)
    · omega

/-- Claim C7 witness: five characters fail, seven characters pass. -/
theorem commit_id_validation_witness :
    (createSnapshotRun "abc12" ⟨true, true⟩ true [] true).exitCode = 1 ∧
    (createSnapshotRun "abc12" ⟨true, true⟩ true [] true).calls = [] ∧
    ¬("abc123f" = "" ∨ "abc123f".length < 7) :=
  have h1 := commit_id_validation "abc12" ⟨true, true⟩ ⟨true, true⟩ true []
    true true true true [] none none ""
  have h2 := commit_id_validation "abc123f" ⟨true, true⟩ ⟨true, true⟩ true
    [] true true true true [] none none ""
  ⟨(h1.1 (by decide)).1, (h1.1 (by decide)).2.1, h2.2 (by decide)⟩

end ScaleNeon

namespace ScaleNeon

theorem containsSub_of_lineStarts {sub s : List Char}
    (h : lineStarts sub s = true) : containsSub sub s = true := by
  cases s with
  | nil => exact h
  | cons c rest => simp [containsSub, h]

theorem containsSub_cons {sub s : List Char} (c : Char)
    (h : containsSub sub s = true) : containsSub sub (c :: s) = true := by
  simp [containsSub, h]

theorem containsSub_append_left {sub s : List Char} (A : List Char)
    (h : containsSub sub s = true) : containsSub sub (A ++ s) = true := by
  induction A with
  | nil => exact h
  | cons a A ih => exact containsSub_cons a ih

/-- Claim C6: test-commit-id matches only a snapshot whose name is
exactly `prod-<commitId>`; when no such snapshot is listed the run exits
1, its console output contains the snapshot name, and the restore
endpoint is never called; when the snapshot is found but its status is
not `active` the run exits 1 and the restore endpoint is never called. -/
theorem test_commit_id_snapshot_lookup
    (cid : String) (snaps : List NeonSnapshot) (rb : Option NeonBranch)
    (uri : Option String) (envText : String)
    (hv : ¬(cid = "" ∨ cid.length < 7)) :
    (∀ s, snaps.find? (fun s => decide (s.name = "prod-" ++ cid)) = some s →
      s.name = "prod-" ++ cid) ∧
    (snaps.find? (fun s => decide (s.name = "prod-" ++ cid)) = none →
      (testCommitIdRun cid ⟨true, true⟩ true true true snaps rb uri
        envText).exitCode = 1 ∧
      (testCommitIdRun cid ⟨true, true⟩ true true true snaps rb uri
        envText).calls = [ApiCall.listSnapshots] ∧
      strContains (testCommitIdRun cid ⟨true, true⟩ true true true snaps rb
        uri envText).message ("prod-" ++ cid) = true) ∧
    (∀ s, snaps.find? (fun s => decide (s.name = "prod-" ++ cid)) = some s →
      s.status ≠ SnapshotStatus.active →
      (testCommitIdRun cid ⟨true, true⟩ true true true snaps rb uri
        envText).exitCode = 1 ∧
      (testCommitIdRun cid ⟨true, true⟩ true true true snaps rb uri
        envText).calls = [ApiCall.listSnapshots]) := by
  refine ⟨?_, ?_, ?_⟩
  · intro t ht
    have hp := List.find?_some ht
    exact of_decide_eq_true hp
  · intro hn
    have hrun : testCommitIdRun cid ⟨true, true⟩ true true true snaps rb uri
        envText =
        { exitCode := 1, calls := [ApiCall.listSnapshots],
          message := "Looking for snapshot: " ++ ("prod-" ++ cid) ++
            "...\nSnapshot not found: " ++ ("prod-" ++ cid) } := by
      simp [testCommitIdRun, hv, hn]
    rw [hrun]
    refine ⟨rfl, rfl, ?_⟩
    show containsSub ("prod-" ++ cid).data
      (("Looking for snapshot: " ++ ("prod-" ++ cid) ++
        "...\nSnapshot not found: " ++ ("prod-" ++ cid)).data) = true
    simp only [String.data_append, List.append_assoc]
    apply containsSub_append_left
    apply containsSub_of_lineStarts
    rw [← List.append_assoc]
    exact lineStarts_self_append _ _
  · intro s hs hst
    have hrun : testCommitIdRun cid ⟨true, true⟩ true true true snaps rb uri
        envText =
        { exitCode := 1, calls := [ApiCall.listSnapshots],
          message := "Looking for snapshot: " ++ ("prod-" ++ cid) ++
            "...\nSnapshot is not ready" } := by
      simp [testCommitIdRun, hv, hs, hst]
    rw [hrun]
    exact ⟨rfl, rfl⟩

/-- Claim C6 witness: commit `deadbee` with no `prod-deadbee` snapshot. -/
theorem test_commit_id_snapshot_lookup_witness :
    (testCommitIdRun "deadbee" ⟨true, true⟩ true true true
      [⟨"s1", "prod-other", SnapshotStatus.active⟩] none none
      "").exitCode = 1 ∧
    (testCommitIdRun "deadbee" ⟨true, true⟩ true true true
      [⟨"s1", "prod-other", SnapshotStatus.active⟩] none none "").calls =
      [ApiCall.listSnapshots] ∧
    strContains (testCommitIdRun "deadbee" ⟨true, true⟩ true true true
      [⟨"s1", "prod-other", SnapshotStatus.active⟩] none none "").message
      ("prod-" ++ "deadbee") = true :=
  have h := test_commit_id_snapshot_lookup "deadbee"
    [⟨"s1", "prod-other", SnapshotStatus.active⟩] none none "" (by decide)
  h.2.1 (by decide)

end ScaleNeon

namespace ScaleNeon

theorem substituteTemplate_no_dollar {matched before after t : List Char}
    (h : '$' ∉ t) : substituteTemplate matched before after t = t := by
  induction t with
  | nil => rfl
  | cons c rest ih =>
    have hc : ¬ c = '$' := fun e => h (e ▸ List.mem_cons_self c rest)
    have h' : '$' ∉ rest := fun hm => h (List.mem_cons_of_mem c hm)
    rw [substituteTemplate.eq_def]
    simp only [if_neg hc, ih h']

theorem findFirstLine_cons_neg {pre l : List Char} {ls : List (List Char)}
    (h : lineStarts pre l = false) :
    findFirstLine pre (l :: ls) =
      (findFirstLine pre ls).map (fun x => (l :: x.1, x.2.1, x.2.2)) := by
  simp [findFirstLine, h]

theorem findFirstLine_cons_pos {pre l : List Char} {ls : List (List Char)}
    (h : lineStarts pre l = true) :
    findFirstLine pre (l :: ls) = some ([], l, ls) := by
  simp [findFirstLine, h]

theorem replaceFirstLineSubst_second {pre template env l1 l2 : List Char}
    (hsplit : splitCharLines env = [l1, l2])
    (h1 : lineStarts pre l1 = false) (h2 : lineStarts pre l2 = true)
    (hT : '$' ∉ template) :
    replaceFirstLineSubst pre template env = l1 ++ '\n' :: template := by
  unfold replaceFirstLineSubst
  rw [hsplit, findFirstLine_cons_neg h1, findFirstLine_cons_pos h2]
  show beforeTextOf [l1] ++
    substituteTemplate l2 (beforeTextOf [l1]) (afterTextOf []) template ++
    afterTextOf [] = l1 ++ '\n' :: template
  rw [substituteTemplate_no_dollar hT]
  show (l1 ++ ['\n']) ++ template ++ [] = l1 ++ '\n' :: template
  simp

theorem replaceFirstLineSubst_first {pre template env l1 l2 : List Char}
    (hsplit : splitCharLines env = [l1, l2])
    (h1 : lineStarts pre l1 = true) (hT : '$' ∉ template) :
    replaceFirstLineSubst pre template env = template ++ '\n' :: l2 := by
  unfold replaceFirstLineSubst
  rw [hsplit, findFirstLine_cons_pos h1]
  show beforeTextOf [] ++
    substituteTemplate l1 (beforeTextOf []) (afterTextOf [l2]) template ++
    afterTextOf [l2] = template ++ '\n' :: l2
  rw [substituteTemplate_no_dollar hT]
  show [] ++ template ++ ('\n' :: l2) = template ++ '\n' :: l2
  simp

theorem strData_append (a b : String) : (a ++ b).data = a.data ++ b.data :=
  rfl

end ScaleNeon

namespace ScaleNeon

/-- Claim C8: with the production branch resolved to `pb`, init-new-feature
issues a create-branch request whose parent is `pb.id`, whose name is the
sanitized branch name, with a pooled endpoint, and whose expiry is exactly
fourteen days (in epoch milliseconds) after the call time — within the
claimed one-second tolerance — and on success the `.env` file's
`DATABASE_URL` reads back as the returned connection URI with the pooler
host substituted when present. -/
theorem init_new_feature_request_and_env
    (bn : String) (hbn : bn ≠ "") (branches : List NeonBranch)
    (pb : NeonBranch) (hpb : findProductionBranchInit branches = some pb)
    (now : Nat) (resp : CreateBranchResp) (cu : ConnectionUriInfo)
    (rest : List ConnectionUriInfo)
    (hcu : resp.connection_uris = cu :: rest) (envText : String)
    (hurl1 : '\n' ∉ (selectDatabaseUrl cu).data)
    (hurl2 : '"' ∉ (selectDatabaseUrl cu).data) :
    (initNewFeatureRun (some bn) ⟨true, true⟩ true true branches now
      (some resp) envText).exitCode = 0 ∧
    (initNewFeatureRun (some bn) ⟨true, true⟩ true true branches now
      (some resp) envText).calls =
      [ApiCall.listBranches, ApiCall.createBranch
        { parent_id := pb.id, name := sanitizeBranchName bn,
          expire_at := now + 14 * 86400000, pooler_enabled := true }] ∧
    (initNewFeatureRun (some bn) ⟨true, true⟩ true true branches now
      (some resp) envText).envOut =
      some (upsertEnv envText "DATABASE_URL" (selectDatabaseUrl cu)) ∧
    readEnvKey (upsertEnv envText "DATABASE_URL" (selectDatabaseUrl cu))
      "DATABASE_URL" = some (selectDatabaseUrl cu) := by
  refine ⟨?_, ?_, ?_, ?_⟩
  · simp [initNewFeatureRun, optNonEmpty, hbn, hpb, hcu]
  · simp [initNewFeatureRun, optNonEmpty, hbn, hpb, hcu]
  · simp [initNewFeatureRun, optNonEmpty, hbn, hpb, hcu]
  · show (readEnvKeyData (upsertEnvData envText.data "DATABASE_URL".data
      (selectDatabaseUrl cu).data) "DATABASE_URL".data).map String.mk =
      some (selectDatabaseUrl cu)
    rw [readEnvKeyData_upsertEnvData _ _ _ (by decide) hurl1 hurl2]
    rfl

/-- Claim C8 witness: the specification's mock — production branch `p1`,
branch name `team/x` sanitized to `team-x`, and a pooled URI written. -/
theorem init_new_feature_request_and_env_witness :
    (initNewFeatureRun (some "team/x") ⟨true, true⟩ true true
      [⟨"p1", "production", true, false⟩] 1700000000000
      (some ⟨"team-x", "br-9",
        [⟨"postgresql://u:p@ep-a.c-2.us.neon.tech/db",
          "ep-a.c-2.us.neon.tech", "ep-a-pooler.c-2.us.neon.tech"⟩]⟩)
      "").calls =
      [ApiCall.listBranches, ApiCall.createBranch
        { parent_id := "p1", name := "team-x",
          expire_at := 1700000000000 + 14 * 86400000,
          pooler_enabled := true }] ∧
    readEnvKey (upsertEnv "" "DATABASE_URL"
      (selectDatabaseUrl ⟨"postgresql://u:p@ep-a.c-2.us.neon.tech/db",
        "ep-a.c-2.us.neon.tech", "ep-a-pooler.c-2.us.neon.tech"⟩))
      "DATABASE_URL" =
      some "postgresql://u:p@ep-a-pooler.c-2.us.neon.tech/db" :=
  have h := init_new_feature_request_and_env "team/x" (by decide)
    [⟨"p1", "production", true, false⟩] ⟨"p1", "production", true, false⟩
    rfl 1700000000000
    ⟨"team-x", "br-9",
      [⟨"postgresql://u:p@ep-a.c-2.us.neon.tech/db",
        "ep-a.c-2.us.neon.tech", "ep-a-pooler.c-2.us.neon.tech"⟩]⟩
    ⟨"postgresql://u:p@ep-a.c-2.us.neon.tech/db",
      "ep-a.c-2.us.neon.tech", "ep-a-pooler.c-2.us.neon.tech"⟩
    [] rfl "" (by decide) (by decide)
  ⟨h.2.1, h.2.2.2⟩

end ScaleNeon

namespace ScaleNeon

theorem drop_keyEq_append (key rest : List Char) :
    ((key ++ ['=']) ++ rest).drop (key.length + 1) = rest := by
  have h : key.length + 1 = (key ++ ['=']).length := by simp
  rw [h, List.drop_left]

theorem filter_no_quote {v : List Char} (hq : '"' ∉ v) :
    v.filter (fun c => c != '"') = v :=
  List.filter_eq_self.2 (fun a ha => by
    have hne : a ≠ '"' := fun e => hq (e ▸ ha)
    simp [hne])

theorem readEnvKeyData_of_split {text key v : List Char}
    {L : List (List Char)} (hsplit : splitCharLines text = L)
    (hfind : L.find? (fun l => lineStarts (key ++ ['=']) l) =
      some ((key ++ ['=']) ++ v))
    (hq : '"' ∉ v) :
    readEnvKeyData text key = some v := by
  unfold readEnvKeyData
  rw [hsplit, hfind]
  simp only [Option.map_some']
  rw [drop_keyEq_append]
  exact congrArg some (filter_no_quote hq)

/-- Claim C4 counterexample: a run over an `.env` that already holds a
backup `ORIGINAL_DATABASE_URL=old` rewrites it with the currently active
`mid` — the existing backup value is clobbered, contrary to the claim
that the backup is written only when absent. -/
theorem backup_clobbered_counterexample :
    readEnvKey "ORIGINAL_DATABASE_URL=old\nDATABASE_URL=mid"
      "ORIGINAL_DATABASE_URL" = some "old" ∧
    readEnvKey (updateEnvForTest
      "ORIGINAL_DATABASE_URL=old\nDATABASE_URL=mid" "new2" "abc123f")
      "ORIGINAL_DATABASE_URL" = some "mid" := by
  constructor <;> rfl

end ScaleNeon

namespace ScaleNeon

theorem setFirstLine_cons_neg {pre nl l : List Char}
    {ls : List (List Char)} (h : lineStarts pre l = false) :
    setFirstLine pre nl (l :: ls) = (setFirstLine pre nl ls).map (l :: ·) :=
  by simp [setFirstLine, h]

theorem setFirstLine_cons_pos {pre nl l : List Char}
    {ls : List (List Char)} (h : lineStarts pre l = true) :
    setFirstLine pre nl (l :: ls) = some (nl :: ls) := by
  simp [setFirstLine, h]

/-- Claim C4 (amended): the backup step rewrites `ORIGINAL_DATABASE_URL`
on every run with the `DATABASE_URL` value captured before the overwrite
— when a backup entry already exists it is overwritten with that
captured value rather than preserved — so the backup key holds the
previously active value, not a second active one, but an earlier backup
does not survive a later run; the captured value is written verbatim
provided it contains no `$` (a `$` in it would pass through the
`$`-substitution of the JavaScript `String.replace` replacement
string). -/
theorem backup_always_captures_previous
    (old mid new commit : String)
    (hold : '\n' ∉ old.data)
    (hmid1 : '\n' ∉ mid.data) (hmid2 : '"' ∉ mid.data) (hmid3 : mid ≠ "")
    (hmidD : '$' ∉ mid.data)
    (hnew : '\n' ∉ new.data) (hnewD : '$' ∉ new.data) :
    readEnvKey (updateEnvForTest
      ("ORIGINAL_DATABASE_URL=" ++ old ++ "\nDATABASE_URL=" ++ mid) new
      commit) "ORIGINAL_DATABASE_URL" = some mid := by
  have henv : ("ORIGINAL_DATABASE_URL=" ++ old ++ "\nDATABASE_URL=" ++
      mid).data =
      ("ORIGINAL_DATABASE_URL=".data ++ old.data) ++
        '\n' :: ("DATABASE_URL=".data ++ mid.data) := by
    have eNlDb : ("\nDATABASE_URL=" : String).data =
      '\n' :: "DATABASE_URL=".data := rfl
    simp [strData_append, eNlDb]
  have hl1nn : '\n' ∉ "ORIGINAL_DATABASE_URL=".data ++ old.data := by
    intro h
    rcases List.mem_append.1 h with h | h
    · exact absurd h (by decide)
    · exact hold h
  have hl2nn : '\n' ∉ "DATABASE_URL=".data ++ mid.data := by
    intro h
    rcases List.mem_append.1 h with h | h
    · exact absurd h (by decide)
    · exact hmid1 h
  have hsplitEnv : splitCharLines ("ORIGINAL_DATABASE_URL=" ++ old ++
      "\nDATABASE_URL=" ++ mid).data =
      ["ORIGINAL_DATABASE_URL=".data ++ old.data,
       "DATABASE_URL=".data ++ mid.data] := by
    rw [henv, splitCharLines_append_newline hl1nn,
      splitCharLines_single hl2nn]
  have hA : lineStarts "DATABASE_URL=".data
      ("ORIGINAL_DATABASE_URL=".data ++ old.data) = false := rfl
  have hB : lineStarts "DATABASE_URL=".data
      ("DATABASE_URL=".data ++ mid.data) = true :=
    lineStarts_self_append _ _
  have hfindDb : ["ORIGINAL_DATABASE_URL=".data ++ old.data,
      "DATABASE_URL=".data ++ mid.data].find?
      (fun l => lineStarts ("DATABASE_URL".data ++ ['=']) l) =
      some (("DATABASE_URL".data ++ ['=']) ++ mid.data) := by
    rw [List.find?_cons_of_neg _ (fun hh => Bool.false_ne_true hh),
      List.find?_cons_of_pos _ (show lineStarts ("DATABASE_URL".data ++
        ['=']) ("DATABASE_URL=".data ++ mid.data) = true from hB)]
    rfl
  have hcur : readEnvKeyData ("ORIGINAL_DATABASE_URL=" ++ old ++
      "\nDATABASE_URL=" ++ mid).data "DATABASE_URL".data =
      some mid.data :=
    readEnvKeyData_of_split hsplitEnv hfindDb hmid2
  have hmidne : mid.data ≠ [] := fun h => hmid3 (String.ext h)
  have hback : backupValue ("ORIGINAL_DATABASE_URL=" ++ old ++
      "\nDATABASE_URL=" ++ mid).data = mid.data := by
    unfold backupValue
    rw [hcur]
    exact if_neg hmidne
  have hc1 : containsSub "DATABASE_URL=".data
      ("ORIGINAL_DATABASE_URL=" ++ old ++ "\nDATABASE_URL=" ++ mid).data
      = true := by
    rw [henv, List.append_cons ("ORIGINAL_DATABASE_URL=".data ++ old.data)
      '\n' ("DATABASE_URL=".data ++ mid.data)]
    exact containsSub_append_left _ (containsSub_of_lineStarts hB)
  have hT1 : '$' ∉ "DATABASE_URL=\"".data ++ new.data ++ ['"'] := by
    intro h
    rcases List.mem_append.1 h with h | h
    · rcases List.mem_append.1 h with h | h
      · exact absurd h (by decide)
      · exact hnewD h
    · exact absurd (List.mem_singleton.1 h) (by decide)
  have hstep1 : testEnvStep1 ("ORIGINAL_DATABASE_URL=" ++ old ++
      "\nDATABASE_URL=" ++ mid).data new.data =
      ("ORIGINAL_DATABASE_URL=".data ++ old.data) ++
        '\n' :: ("DATABASE_URL=\"".data ++ new.data ++ ['"']) := by
    unfold testEnvStep1
    rw [if_pos hc1]
    exact replaceFirstLineSubst_second hsplitEnv hA hB hT1
  have hnl2nn : '\n' ∉ "DATABASE_URL=\"".data ++ new.data ++ ['"'] := by
    intro h
    rcases List.mem_append.1 h with h | h
    · rcases List.mem_append.1 h with h | h
      · exact absurd h (by decide)
      · exact hnew h
    · exact absurd (List.mem_singleton.1 h) (by decide)
  have hsplitE1 : splitCharLines
      (("ORIGINAL_DATABASE_URL=".data ++ old.data) ++
        '\n' :: ("DATABASE_URL=\"".data ++ new.data ++ ['"'])) =
      ["ORIGINAL_DATABASE_URL=".data ++ old.data,
       "DATABASE_URL=\"".data ++ new.data ++ ['"']] := by
    rw [splitCharLines_append_newline hl1nn,
      splitCharLines_single hnl2nn]
  have hc2 : containsSub "ORIGINAL_DATABASE_URL=".data
      (("ORIGINAL_DATABASE_URL=".data ++ old.data) ++
        '\n' :: ("DATABASE_URL=\"".data ++ new.data ++ ['"'])) = true := by
    apply containsSub_of_lineStarts
    rw [List.append_assoc]
    exact lineStarts_self_append _ _
  have hC : lineStarts "ORIGINAL_DATABASE_URL=".data
      ("ORIGINAL_DATABASE_URL=".data ++ old.data) = true :=
    lineStarts_self_append _ _
  have hT2 : '$' ∉ "ORIGINAL_DATABASE_URL=".data ++ mid.data := by
    intro h
    rcases List.mem_append.1 h with h | h
    · exact absurd h (by decide)
    · exact hmidD h
  have hupd : updateEnvForTestData
      ("ORIGINAL_DATABASE_URL=" ++ old ++ "\nDATABASE_URL=" ++ mid).data
      new.data commit.data =
      ("ORIGINAL_DATABASE_URL=".data ++ mid.data) ++
        '\n' :: ("DATABASE_URL=\"".data ++ new.data ++ ['"']) := by
    unfold updateEnvForTestData
    rw [hstep1, if_pos hc2, hback]
    exact replaceFirstLineSubst_first hsplitE1 hC hT2
  show (readEnvKeyData (updateEnvForTestData
    ("ORIGINAL_DATABASE_URL=" ++ old ++ "\nDATABASE_URL=" ++ mid).data
    new.data commit.data) "ORIGINAL_DATABASE_URL".data).map String.mk =
    some mid
  rw [hupd]
  have hnewOrigNN : '\n' ∉ "ORIGINAL_DATABASE_URL=".data ++ mid.data := by
    intro h
    rcases List.mem_append.1 h with h | h
    · exact absurd h (by decide)
    · exact hmid1 h
  have hsplitF : splitCharLines
      (("ORIGINAL_DATABASE_URL=".data ++ mid.data) ++
        '\n' :: ("DATABASE_URL=\"".data ++ new.data ++ ['"'])) =
      ["ORIGINAL_DATABASE_URL=".data ++ mid.data,
       "DATABASE_URL=\"".data ++ new.data ++ ['"']] := by
    rw [splitCharLines_append_newline hnewOrigNN,
      splitCharLines_single hnl2nn]
  have hfindF : ["ORIGINAL_DATABASE_URL=".data ++ mid.data,
      "DATABASE_URL=\"".data ++ new.data ++ ['"']].find?
      (fun l => lineStarts ("ORIGINAL_DATABASE_URL".data ++ ['=']) l) =
      some (("ORIGINAL_DATABASE_URL".data ++ ['=']) ++ mid.data) := by
    rw [List.find?_cons_of_pos _ (show lineStarts
      ("ORIGINAL_DATABASE_URL".data ++ ['='])
      ("ORIGINAL_DATABASE_URL=".data ++ mid.data) = true from
      lineStarts_self_append _ _)]
    rfl
  rw [readEnvKeyData_of_split hsplitF hfindF hmid2]
  rfl

/-- Claim C4 witness: concrete values for the amended statement. -/
theorem backup_always_captures_previous_witness :
    readEnvKey (updateEnvForTest "ORIGINAL_DATABASE_URL=a\nDATABASE_URL=b"
      "c" "k1234567") "ORIGINAL_DATABASE_URL" = some "b" :=
  backup_always_captures_previous "a" "b" "c" "k1234567" (by decide)
    (by decide) (by decide) (by decide) (by decide) (by decide) (by decide)

end ScaleNeon

namespace ScaleNeon

theorem takeWhile_append_all {p : Char → Bool} {l1 : List Char}
    (h : ∀ c ∈ l1, p c = true) (l2 : List Char) :
    (l1 ++ l2).takeWhile p = l1 ++ l2.takeWhile p := by
  induction l1 with
  | nil => rfl
  | cons a l1 ih =>
    have ha : p a = true := h a (List.mem_cons_self a l1)
    simp [List.takeWhile_cons, ha,
      ih (fun c hc => h c (List.mem_cons_of_mem a hc))]

theorem dropWhile_append_all {p : Char → Bool} {l1 : List Char}
    (h : ∀ c ∈ l1, p c = true) (l2 : List Char) :
    (l1 ++ l2).dropWhile p = l2.dropWhile p := by
  induction l1 with
  | nil => rfl
  | cons a l1 ih =>
    have ha : p a = true := h a (List.mem_cons_self a l1)
    simp [List.dropWhile_cons, ha,
      ih (fun c hc => h c (List.mem_cons_of_mem a hc))]

theorem extractEndpointIdFromHost_eq (host : String) {tail : List Char}
    (hdrop : host.data.dropWhile isEndpointChar = '.' :: tail) :
    extractEndpointIdFromHost host =
      if lineStarts "ep-".data (host.data.takeWhile isEndpointChar) &&
          decide (3 < (host.data.takeWhile isEndpointChar).length) &&
          decide (10 ≤ tail.length) &&
          decide (tail.drop (tail.length - 10) = ".neon.tech".data) &&
          (tail.take (tail.length - 10)).all (fun c => c != '\n') then
        some (String.mk (host.data.takeWhile isEndpointChar))
      else none := by
  unfold extractEndpointIdFromHost
  rw [hdrop]
  rfl

theorem addPoolerToHost_eq (h : String) {tail : List Char}
    (hdrop : h.data.dropWhile isEndpointChar = '.' :: tail) :
    addPoolerToHost h =
      if lineStarts "ep-".data (h.data.takeWhile isEndpointChar) &&
          decide (3 < (h.data.takeWhile isEndpointChar).length) then
        String.mk (h.data.takeWhile isEndpointChar ++ "-pooler.".data ++
          tail)
      else h := by
  unfold addPoolerToHost
  rw [hdrop]
  rfl

/-- Claim C10: for a pooled host `ep-<x>-pooler.<suffix>.neon.tech` the
extraction returns `ep-<x>-pooler` — the greedy class absorbs the
`-pooler` suffix — which differs from the bare endpoint id `ep-<x>`; the
endpoint whose id is `ep-<x>` and host is `ep-<x>.<suffix>.neon.tech`
therefore fails the direct-host and endpoint-id comparisons and matches
only through the comparison that re-inserts `-pooler` into its host. -/
theorem pooled_host_extraction_and_match
    (x suffix : String) (hx : x ≠ "")
    (hxc : ∀ c ∈ x.data, isEndpointChar c = true)
    (hs : '\n' ∉ suffix.data) :
    extractEndpointIdFromHost
      ("ep-" ++ x ++ "-pooler." ++ suffix ++ ".neon.tech") =
      some ("ep-" ++ x ++ "-pooler") ∧
    ("ep-" ++ x ++ "-pooler") ≠ ("ep-" ++ x) ∧
    addPoolerToHost ("ep-" ++ x ++ "." ++ suffix ++ ".neon.tech") =
      "ep-" ++ x ++ "-pooler." ++ suffix ++ ".neon.tech" ∧
    decide (("ep-" ++ x ++ "." ++ suffix ++ ".neon.tech" : String) =
      ("ep-" ++ x ++ "-pooler." ++ suffix ++ ".neon.tech")) = false ∧
    decide (("ep-" ++ x : String) = ("ep-" ++ x ++ "-pooler")) = false ∧
    endpointMatches
      ⟨"ep-" ++ x, "ep-" ++ x ++ "." ++ suffix ++ ".neon.tech"⟩
      ("ep-" ++ x ++ "-pooler." ++ suffix ++ ".neon.tech")
      ("ep-" ++ x ++ "-pooler") = true := by
  have hepall : ∀ c ∈ ("ep-" : String).data, isEndpointChar c = true := by
    decide
  have hpoolall : ∀ c ∈ ("-pooler" : String).data,
      isEndpointChar c = true := by decide
  have hdot : isEndpointChar '.' = false := by decide
  have hxne : x.data ≠ [] := fun h => hx (String.ext h)
  have hxlen : 0 < x.data.length := List.length_pos.2 hxne
  have hPall : ∀ c ∈ ("ep-".data ++ x.data) ++ "-pooler".data,
      isEndpointChar c = true := by
    intro c hc
    rcases List.mem_append.1 hc with h | h
    · rcases List.mem_append.1 h with h | h
      · exact hepall c h
      · exact hxc c h
    · exact hpoolall c h
  have hP2all : ∀ c ∈ "ep-".data ++ x.data, isEndpointChar c = true := by
    intro c hc
    rcases List.mem_append.1 hc with h | h
    · exact hepall c h
    · exact hxc c h
  have hhost : ("ep-" ++ x ++ "-pooler." ++ suffix ++ ".neon.tech").data =
      (("ep-".data ++ x.data) ++ "-pooler".data) ++
        '.' :: (suffix.data ++ ".neon.tech".data) := by
    have e1 : ("-pooler." : String).data = "-pooler".data ++ ['.'] := rfl
    simp [strData_append, e1]
  have hephost : ("ep-" ++ x ++ "." ++ suffix ++ ".neon.tech").data =
      ("ep-".data ++ x.data) ++
        '.' :: (suffix.data ++ ".neon.tech".data) := by
    have e1 : ("." : String).data = ['.'] := rfl
    simp [strData_append, e1]
  have e3 : ("ep-" : String).data.length = 3 := rfl
  have e7 : ("-pooler" : String).data.length = 7 := rfl
  have h10 : (".neon.tech" : String).data.length = 10 := rfl
  have htail : (suffix.data ++ ".neon.tech".data).length - 10 =
      suffix.data.length := by
    rw [List.length_append, h10]
    omega
  have hb3 : decide (10 ≤ (suffix.data ++ ".neon.tech".data).length)
      = true := by
    apply decide_eq_true
    rw [List.length_append, h10]
    omega
  have hb4 : decide ((suffix.data ++ ".neon.tech".data).drop
      ((suffix.data ++ ".neon.tech".data).length - 10) =
      ".neon.tech".data) = true := by
    apply decide_eq_true
    rw [htail]
    exact List.drop_left _ _
  have hb5 : ((suffix.data ++ ".neon.tech".data).take
      ((suffix.data ++ ".neon.tech".data).length - 10)).all
      (fun c => c != '\n') = true := by
    rw [htail, List.take_left]
    apply List.all_eq_true.2
    intro c hc
    have hne : c ≠ '\n' := fun e => hs (e ▸ hc)
    simp [hne]
  have hdropHost : ("ep-" ++ x ++ "-pooler." ++ suffix ++
      ".neon.tech").data.dropWhile isEndpointChar =
      '.' :: (suffix.data ++ ".neon.tech".data) := by
    rw [hhost, dropWhile_append_all hPall]
    simp [List.dropWhile_cons, hdot]
  have htakeHost : ("ep-" ++ x ++ "-pooler." ++ suffix ++
      ".neon.tech").data.takeWhile isEndpointChar =
      ("ep-".data ++ x.data) ++ "-pooler".data := by
    rw [hhost, takeWhile_append_all hPall]
    simp [List.takeWhile_cons, hdot]
  have hdropEp : ("ep-" ++ x ++ "." ++ suffix ++
      ".neon.tech").data.dropWhile isEndpointChar =
      '.' :: (suffix.data ++ ".neon.tech".data) := by
    rw [hephost, dropWhile_append_all hP2all]
    simp [List.dropWhile_cons, hdot]
  have htakeEp : ("ep-" ++ x ++ "." ++ suffix ++
      ".neon.tech").data.takeWhile isEndpointChar =
      "ep-".data ++ x.data := by
    rw [hephost, takeWhile_append_all hP2all]
    simp [List.takeWhile_cons, hdot]
  have haddpool : addPoolerToHost ("ep-" ++ x ++ "." ++ suffix ++
      ".neon.tech") = "ep-" ++ x ++ "-pooler." ++ suffix ++
      ".neon.tech" := by
    rw [addPoolerToHost_eq _ hdropEp, htakeEp]
    have hc1 : lineStarts "ep-".data ("ep-".data ++ x.data) = true :=
      lineStarts_self_append _ _
    have hb2 : decide (3 < ("ep-".data ++ x.data).length) = true := by
      apply decide_eq_true
      rw [List.length_append, e3]
      omega
    rw [hc1, hb2]
    show String.mk _ = _
    apply String.ext
    show ("ep-".data ++ x.data) ++ "-pooler.".data ++
      (suffix.data ++ ".neon.tech".data) =
      ("ep-" ++ x ++ "-pooler." ++ suffix ++ ".neon.tech").data
    simp [strData_append]
  refine ⟨?_, ?_, haddpool, ?_, ?_, ?_⟩
  · rw [extractEndpointIdFromHost_eq _ hdropHost, htakeHost]
    have hc1 : lineStarts "ep-".data
        (("ep-".data ++ x.data) ++ "-pooler".data) = true := by
      rw [List.append_assoc]
      exact lineStarts_self_append _ _
    have hb2 : decide (3 < (("ep-".data ++ x.data) ++
        "-pooler".data).length) = true := by
      apply decide_eq_true
      rw [List.length_append, List.length_append, e3, e7]
      omega
    rw [hc1, hb2, hb3, hb4, hb5]
    rfl
  · intro h
    have h2 := congrArg String.length h
    simp [String.length_append] at h2
    exact absurd h2 (by decide)
  · apply decide_eq_false
    intro h
    have h2 := congrArg String.length h
    simp [String.length_append] at h2
    exact absurd h2 (by decide)
  · apply decide_eq_false
    intro h
    have h2 := congrArg String.length h
    simp [String.length_append] at h2
    exact absurd h2 (by decide)
  · unfold endpointMatches
    rw [haddpool]
    simp

end ScaleNeon

namespace ScaleNeon

/-- Claim C10 witness: the documented example host of `which-db.ts`. -/
theorem pooled_host_extraction_and_match_witness :
    extractEndpointIdFromHost
      "ep-cool-darkness-123456-pooler.c-2.us-west-2.aws.neon.tech" =
      some "ep-cool-darkness-123456-pooler" ∧
    endpointMatches ⟨"ep-cool-darkness-123456",
      "ep-cool-darkness-123456.c-2.us-west-2.aws.neon.tech"⟩
      "ep-cool-darkness-123456-pooler.c-2.us-west-2.aws.neon.tech"
      "ep-cool-darkness-123456-pooler" = true :=
  have h := pooled_host_extraction_and_match "cool-darkness-123456"
    "c-2.us-west-2.aws" (by decide) (by decide) (by decide)
  ⟨h.1, h.2.2.2.2.2⟩

end ScaleNeon
